import Mathlib

/-!
Verification of the gonfig configuration library core.

The development shallowly embeds the Go sources:
* the environment hierarchy builder (`PrepareEnvs` / `insertIntoMap`
  from `loader_envs.go`),
* the reflective field walker (`ReflectFieldsOf` from `reflection.go`),
* the type-directed coercion engine (`SetDefaults` / `tryCustomTypes` /
  `setDefaultValue` from the defaults loader),
* the required-field validator (`ValidateRequiredFields` from
  `loader_required.go`).

Go strings are modelled as Lean `String` values processed at the
character level (all inputs of interest are ASCII, where Go's byte-wise
operations and character-wise operations agree); Go maps are modelled as
association lists with insert-or-replace semantics (iteration order is
never observed by the modelled code, only insertion and lookup).
-/

set_option autoImplicit false

namespace Gonfig

/-! ## Character-level models of the Go `strings` helpers -/

/-- Model of `strings.Split` for a single-character separator, on the
character list of the string.  `strings.Split("", sep)` is `[""]`,
matching the `[] => [[]]` base case. -/
def splitChar (c : Char) : List Char → List (List Char)
  | [] => [[]]
  | a :: rest =>
    match splitChar c rest with
    | [] => [[]]
    | g :: gs => if a = c then [] :: g :: gs else (a :: g) :: gs

/-- Model of `strings.Split(s, sep)` for the single-character separators
used by the library (`"_"`, `"="`, `","`, `":"`, `"."`, `"/"`). -/
def splitGo (s : String) (sep : Char) : List String :=
  (splitChar sep s.toList).map List.asString

/-- Model of `strings.Join(elems, sep)`. -/
def joinGo (elems : List String) (sep : String) : String :=
  match elems with
  | [] => ""
  | [x] => x
  | x :: y :: rest => x ++ sep ++ joinGo (y :: rest) sep

/-- Model of `strings.HasPrefix(s, pre)`. -/
def hasPrefixGo (s pre : String) : Bool :=
  pre.toList.isPrefixOf s.toList

/-- Model of `strings.TrimPrefix(s, pre)`: the prefix is removed when
present, otherwise the string is returned unchanged. -/
def trimPrefixGo (s pre : String) : String :=
  if hasPrefixGo s pre then List.asString (s.toList.drop pre.toList.length) else s

/-- Model of `strings.SplitN(s, sep, 2)`: at most one split, the second
part keeps any further separators. -/
def splitN2Go (s : String) (sep : Char) : List String :=
  match splitGo s sep with
  | [] => []
  | [x] => [x]
  | x :: y :: rest => [x, joinGo (y :: rest) (String.singleton sep)]

/-! ## The environment tree (`map[string]interface{}`) -/

/-- A value of the environment tree built by `PrepareEnvs`: either a leaf
string or a nested map, mirroring the dynamic `interface{}` values the Go
code stores (`string` or `map[string]interface{}`). -/
inductive EnvVal where
  | str (s : String)
  | tree (m : List (String × EnvVal))

/-- Go map lookup `m[k]` on the association-list model. -/
def lookupKV (m : List (String × EnvVal)) (k : String) : Option EnvVal :=
  match m with
  | [] => none
  | (k', v) :: rest => if k' = k then some v else lookupKV rest k

/-- Go map assignment `m[k] = v` on the association-list model: replace
the binding when the key is present, append it otherwise. -/
def insertKV (m : List (String × EnvVal)) (k : String) (v : EnvVal) :
    List (String × EnvVal) :=
  match m with
  | [] => [(k, v)]
  | (k', v') :: rest => if k' = k then (k, v) :: rest else (k', v') :: insertKV rest k v

/-- `insertIntoMap` from `loader_envs.go`: store the value under the full
joined key at the current level, ensure a nested map exists under the
first segment (creating one only when the key is absent), and recurse
into it when — and only when — the occupant is a map. -/
def insertIntoMap (m : List (String × EnvVal)) (keys : List String) (value : String) :
    List (String × EnvVal) :=
  match keys with
  | [] => m  -- unreachable: `strings.Split` never returns an empty slice
  | [k] => insertKV m k (.str value)
  | k :: k2 :: rest =>
    let m1 := insertKV m (joinGo (k :: k2 :: rest) "_") (.str value)
    let m2 := if (lookupKV m1 k).isNone then insertKV m1 k (.tree []) else m1
    match lookupKV m2 k with
    | some (.tree nested) => insertKV m2 k (.tree (insertIntoMap nested (k2 :: rest) value))
    | _ => m2

/-- The pair-splitting part of the `PrepareEnvs` loop body: split on the
first `"="`; entries without a pair separator are discarded; the name is
split on the `"_"` delimiter into key segments. -/
def parseEnvPair (env : String) : Option (List String × String) :=
  match splitN2Go env '=' with
  | [nm, value] => some (splitGo nm '_', value)
  | _ => none

/-- The filter/strip/parse part of the `PrepareEnvs` loop body: `none`
when the entry is discarded, otherwise the key segments and the value. -/
def keptEntry (pfx env : String) : Option (List String × String) :=
  if pfx ≠ "" ∧ hasPrefixGo env pfx = false then none
  else parseEnvPair (if pfx ≠ "" then trimPrefixGo env (pfx ++ "_") else env)

/-- One iteration of the `PrepareEnvs` loop. -/
def prepareEnv1 (pfx : String) (m : List (String × EnvVal)) (env : String) :
    List (String × EnvVal) :=
  match keptEntry pfx env with
  | none => m
  | some (keys, value) => insertIntoMap m keys value

/-- `PrepareEnvs` from `loader_envs.go`. -/
def PrepareEnvs (envs : List String) (pfx : String) : List (String × EnvVal) :=
  envs.foldl (prepareEnv1 pfx) []

/-! ## Observations on the environment tree -/

/-- Follow a nonempty path of keys down the tree; descending requires the
intermediate occupants to be nested maps. -/
def lookupPath (m : List (String × EnvVal)) : List String → Option EnvVal
  | [] => some (.tree m)
  | [k] => lookupKV m k
  | k :: k2 :: rest =>
    match lookupKV m k with
    | some (.tree m') => lookupPath m' (k2 :: rest)
    | _ => none

/-- The nested descent of `insertIntoMap` is unblocked: no leaf string
occupies a key where the insertion would need to descend.  (When the key
is absent the code creates a fresh empty map, hence the `[]` case.) -/
def unblocked (m : List (String × EnvVal)) : List String → Bool
  | [] => true
  | [_] => true
  | k :: k2 :: rest =>
    match lookupKV m k with
    | some (.tree m') => unblocked m' (k2 :: rest)
    | some (.str _) => false
    | none => unblocked [] (k2 :: rest)

/-- The value of the last kept entry whose full (possibly prefix-stripped)
name is `f`, scanning the input list in order. -/
def lastValue (pfx : String) (envs : List String) (f : String) : Option String :=
  envs.foldl
    (fun acc env =>
      match keptEntry pfx env with
      | some (keys, value) => if joinGo keys "_" = f then some value else acc
      | none => acc)
    none

/-! ## Lemmas about the association-list map operations -/

theorem lookupKV_insertKV_self (m : List (String × EnvVal)) (k : String) (v : EnvVal) :
    lookupKV (insertKV m k v) k = some v := by
  induction m with
  | nil => simp [insertKV, lookupKV]
  | cons hd tl ih =>
    obtain ⟨k', v'⟩ := hd
    by_cases h : k' = k
    · simp [insertKV, h, lookupKV]
    · simp [insertKV, h, lookupKV, ih]

theorem lookupKV_insertKV_ne (m : List (String × EnvVal)) (k k' : String) (v : EnvVal)
    (h : k' ≠ k) : lookupKV (insertKV m k v) k' = lookupKV m k' := by
  induction m with
  | nil => simp [insertKV, lookupKV, Ne.symm h]
  | cons hd tl ih =>
    obtain ⟨k₀, v₀⟩ := hd
    by_cases h0 : k₀ = k
    · subst h0
      simp [insertKV, lookupKV, Ne.symm h]
    · simp [insertKV, h0, lookupKV, ih]

theorem joinGo_cons_cons (k k2 : String) (rest : List String) :
    joinGo (k :: k2 :: rest) "_" = k ++ "_" ++ joinGo (k2 :: rest) "_" := rfl

theorem length_lt_length_joinGo (k k2 : String) (rest : List String) :
    k.length < (joinGo (k :: k2 :: rest) "_").length := by
  rw [joinGo_cons_cons]
  have h1 : ("_" : String).length = 1 := rfl
  simp [String.length_append, h1]
  omega

theorem ne_joinGo_head (k k2 : String) (rest : List String) :
    k ≠ joinGo (k :: k2 :: rest) "_" := by
  intro h
  have := length_lt_length_joinGo k k2 rest
  rw [← h] at this
  omega

/-- Unfolding of `insertIntoMap` for a multi-segment key list, with the
three possible shapes of the occupant of the first segment's key. -/
theorem insertIntoMap_cons_cons (m : List (String × EnvVal)) (k k2 : String)
    (rest : List String) (value : String) :
    insertIntoMap m (k :: k2 :: rest) value =
      (let m1 := insertKV m (joinGo (k :: k2 :: rest) "_") (.str value)
      match lookupKV m k with
      | some (.tree t) => insertKV m1 k (.tree (insertIntoMap t (k2 :: rest) value))
      | some (.str _) => m1
      | none =>
          insertKV (insertKV m1 k (.tree [])) k
            (.tree (insertIntoMap [] (k2 :: rest) value))) := by
  have hne : k ≠ joinGo (k :: k2 :: rest) "_" := ne_joinGo_head k k2 rest
  have hl : lookupKV (insertKV m (joinGo (k :: k2 :: rest) "_") (.str value)) k =
      lookupKV m k := lookupKV_insertKV_ne _ _ _ _ hne
  simp only [insertIntoMap]
  cases hmk : lookupKV m k with
  | none => simp [hl, hmk, lookupKV_insertKV_self]
  | some v =>
    cases v with
    | str s => simp [hl, hmk]
    | tree t => simp [hl, hmk]

/-- The flat write of `insertIntoMap` is unconditional: the full joined
key is always bound to the value at the level where insertion starts. -/
theorem lookupKV_insertIntoMap_join (m : List (String × EnvVal)) (keys : List String)
    (value : String) (h : keys ≠ []) :
    lookupKV (insertIntoMap m keys value) (joinGo keys "_") = some (.str value) := by
  match keys with
  | [] => exact absurd rfl h
  | [k] =>
    show lookupKV (insertKV m k (.str value)) k = some (.str value)
    exact lookupKV_insertKV_self m k _
  | k :: k2 :: rest =>
    have hne : k ≠ joinGo (k :: k2 :: rest) "_" := ne_joinGo_head k k2 rest
    rw [insertIntoMap_cons_cons]
    cases hmk : lookupKV m k with
    | none =>
      simp only
      rw [lookupKV_insertKV_ne _ _ _ _ (Ne.symm hne),
        lookupKV_insertKV_ne _ _ _ _ (Ne.symm hne), lookupKV_insertKV_self]
    | some v =>
      cases v with
      | str s => simp only; rw [lookupKV_insertKV_self]
      | tree t =>
        simp only
        rw [lookupKV_insertKV_ne _ _ _ _ (Ne.symm hne), lookupKV_insertKV_self]

/-- A top-level key already bound to a leaf string is only ever
overwritten by an entry whose own full joined name is that key: every
other insertion leaves the binding untouched. -/
theorem lookupKV_insertIntoMap_preserve (m : List (String × EnvVal)) (keys : List String)
    (value f s : String) (hne : f ≠ joinGo keys "_")
    (h : lookupKV m f = some (.str s)) :
    lookupKV (insertIntoMap m keys value) f = some (.str s) := by
  match keys with
  | [] => exact h
  | [k] =>
    have : f ≠ k := hne
    show lookupKV (insertKV m k (.str value)) f = some (.str s)
    rw [lookupKV_insertKV_ne _ _ _ _ this, h]
  | k :: k2 :: rest =>
    have hj : f ≠ joinGo (k :: k2 :: rest) "_" := hne
    rw [insertIntoMap_cons_cons]
    by_cases hfk : f = k
    · subst hfk
      rw [h]
      simp only
      rw [lookupKV_insertKV_ne _ _ _ _ hj, h]
    · cases hmk : lookupKV m k with
      | none =>
        simp only
        rw [lookupKV_insertKV_ne _ _ _ _ hfk, lookupKV_insertKV_ne _ _ _ _ hfk,
          lookupKV_insertKV_ne _ _ _ _ hj, h]
      | some v =>
        cases v with
        | str s' => simp only; rw [lookupKV_insertKV_ne _ _ _ _ hj, h]
        | tree t =>
          simp only
          rw [lookupKV_insertKV_ne _ _ _ _ hfk, lookupKV_insertKV_ne _ _ _ _ hj, h]

theorem splitChar_ne_nil (c : Char) (l : List Char) : splitChar c l ≠ [] := by
  cases l with
  | nil => simp [splitChar]
  | cons a rest =>
    simp only [splitChar]
    cases splitChar c rest with
    | nil => simp
    | cons g gs =>
      by_cases h : a = c <;> simp [h]

theorem splitGo_ne_nil (s : String) (c : Char) : splitGo s c ≠ [] := by
  simp [splitGo, splitChar_ne_nil]

theorem parseEnvPair_keys_ne_nil (env : String) (keys : List String) (value : String)
    (h : parseEnvPair env = some (keys, value)) : keys ≠ [] := by
  unfold parseEnvPair at h
  split at h
  · simp only [Option.some.injEq, Prod.mk.injEq] at h
    rw [← h.1]
    exact splitGo_ne_nil _ '_'
  · simp at h

theorem keptEntry_keys_ne_nil (pfx env : String) (keys : List String) (value : String)
    (h : keptEntry pfx env = some (keys, value)) : keys ≠ [] := by
  unfold keptEntry at h
  split at h
  · simp at h
  · exact parseEnvPair_keys_ne_nil _ _ _ h

/-- When the nested descent is unblocked, inserting a multi-segment key
makes every suffix of the key reachable: after descending through the
first `i` segments, the join of the remaining segments is bound to the
value.  `i = 0` is the top-level flat key; `i = keys.length - 1` is the
fully nested path. -/
theorem lookupPath_insertIntoMap_suffix :
    ∀ (keys : List String) (m : List (String × EnvVal)) (value : String) (i : Nat),
      unblocked m keys = true → i < keys.length →
      lookupPath (insertIntoMap m keys value)
        (keys.take i ++ [joinGo (keys.drop i) "_"]) = some (.str value) := by
  intro keys
  induction keys with
  | nil => intro m value i _ hi; simp at hi
  | cons k tail ih =>
    intro m value i hu hi
    match tail, i with
    | [], 0 =>
      simpa [insertIntoMap, lookupPath, joinGo] using lookupKV_insertKV_self m k (.str value)
    | [], i + 1 => simp at hi
    | k2 :: rest, 0 =>
      have := lookupKV_insertIntoMap_join m (k :: k2 :: rest) value (by simp)
      simpa [lookupPath] using this
    | k2 :: rest, i + 1 =>
      have hi' : i < (k2 :: rest).length := by simpa using hi
      rw [insertIntoMap_cons_cons]
      have hpath : (k :: k2 :: rest).take (i + 1) ++
            [joinGo ((k :: k2 :: rest).drop (i + 1)) "_"] =
          k :: ((k2 :: rest).take i ++ [joinGo ((k2 :: rest).drop i) "_"]) := by
        simp [List.take_succ_cons, List.drop_succ_cons]
      rw [hpath]
      cases hpp : (k2 :: rest).take i ++ [joinGo ((k2 :: rest).drop i) "_"] with
      | nil => simp at hpp
      | cons p ps =>
        cases hmk : lookupKV m k with
        | none =>
          have hu' : unblocked [] (k2 :: rest) = true := by
            simpa [unblocked, hmk] using hu
          simp only [lookupPath, lookupKV_insertKV_self]
          rw [← hpp]
          exact ih [] value i hu' hi'
        | some v =>
          cases v with
          | str s => simp [unblocked, hmk] at hu
          | tree t =>
            have hu' : unblocked t (k2 :: rest) = true := by
              simpa [unblocked, hmk] using hu
            simp only [lookupPath, lookupKV_insertKV_self]
            rw [← hpp]
            exact ih t value i hu' hi'

/-- Folding the `PrepareEnvs` loop preserves the invariant that a flat
key carrying a leaf string reflects the most recent same-name entry. -/
theorem foldl_prepareEnv1_lastValue :
    ∀ (envs : List String) (pfx f : String) (m : List (String × EnvVal))
      (acc : Option String),
      (∀ v, acc = some v → lookupKV m f = some (.str v)) →
      ∀ v,
        envs.foldl
          (fun acc env =>
            match keptEntry pfx env with
            | some (keys, value) => if joinGo keys "_" = f then some value else acc
            | none => acc)
          acc = some v →
        lookupKV (envs.foldl (prepareEnv1 pfx) m) f = some (.str v) := by
  intro envs
  induction envs with
  | nil =>
    intro pfx f m acc hinv v hv
    simp only [List.foldl_nil] at hv ⊢
    exact hinv v hv
  | cons e tl ih =>
    intro pfx f m acc hinv v hv
    simp only [List.foldl_cons] at hv ⊢
    refine ih pfx f (prepareEnv1 pfx m e) _ ?_ v hv
    intro w hw
    cases hke : keptEntry pfx e with
    | none =>
      rw [hke] at hw
      simp only [prepareEnv1, hke]
      exact hinv w hw
    | some kv =>
      obtain ⟨keys, value⟩ := kv
      rw [hke] at hw
      have hw' : (if joinGo keys "_" = f then some value else acc) = some w := hw
      simp only [prepareEnv1, hke]
      by_cases hj : joinGo keys "_" = f
      · rw [if_pos hj] at hw'
        injection hw' with hw''
        rw [← hj, ← hw'']
        exact lookupKV_insertIntoMap_join m keys value (keptEntry_keys_ne_nil _ _ _ _ hke)
      · rw [if_neg hj] at hw'
        exact lookupKV_insertIntoMap_preserve m keys value f w
          (fun hh => hj hh.symm) (hinv w hw')

/-! ## Claim theorems for the environment hierarchy builder -/

/-- C1 (amended): `PrepareEnvs ["HELLO_WORLD=1"] ""` returns exactly
`{"HELLO_WORLD": "1", "HELLO": {"WORLD": "1"}}`; and whenever the nested
descent of an insertion is unblocked (no earlier leaf string occupies a
segment's key — in particular for any entry inserted into an empty
tree), every suffix of the inserted name, from the full joined key down
to a single segment, is reachable at the corresponding depth, the flat
form (`i = 0`) and the fully nested form (`i = length - 1`)
simultaneously. -/
theorem c1_env_suffix_reachability :
    (PrepareEnvs ["HELLO_WORLD=1"] "" =
      [("HELLO_WORLD", .str "1"), ("HELLO", .tree [("WORLD", .str "1")])]) ∧
    (∀ (keys : List String) (m : List (String × EnvVal)) (value : String) (i : Nat),
        unblocked m keys = true → i < keys.length →
        lookupPath (insertIntoMap m keys value)
          (keys.take i ++ [joinGo (keys.drop i) "_"]) = some (.str value)) :=
  ⟨rfl, lookupPath_insertIntoMap_suffix⟩

/-- C1 counterexample: after `["A=1", "A_B=2"]`, the flat key `"A_B"`
was inserted, yet its suffix `"B"` is not reachable below `"A"` — the
leaf `"A" ↦ "1"` blocks the nested insertion, so the fully nested form
of `A_B` does not exist. -/
theorem c1_counterexample :
    lookupKV (PrepareEnvs ["A=1", "A_B=2"] "") "A_B" = some (.str "2") ∧
    lookupPath (PrepareEnvs ["A=1", "A_B=2"] "") ["A", "B"] = none ∧
    lookupPath (PrepareEnvs ["A=1", "A_B=2"] "") ["A"] = some (.str "1") :=
  ⟨rfl, rfl, rfl⟩

/-- Witness for `c1_env_suffix_reachability` at a concrete input. -/
theorem c1_witness :
    unblocked [] ["HELLO", "WORLD"] = true ∧ 1 < 2 ∧
    lookupPath (insertIntoMap [] ["HELLO", "WORLD"] "1")
      (["HELLO", "WORLD"].take 1 ++ [joinGo (["HELLO", "WORLD"].drop 1) "_"]) =
      some (.str "1") :=
  ⟨rfl, by omega,
    c1_env_suffix_reachability.2 ["HELLO", "WORLD"] [] "1" 1 rfl (by simp)⟩

/-- C9: for a non-empty prefix, an entry is dropped exactly when the
whole `NAME=VALUE` string does not begin with the prefix as a plain
string prefix; a kept entry is processed as if the prefix plus one
underscore had been stripped when present (`trimPrefixGo` leaves the
entry unchanged otherwise).  Concretely, `"APPLE=1"` with prefix
`"APP"` is kept under its full unstripped name, `"APP_LE=1"` is
stripped to `"LE"`, and `"BANANA=1"` is dropped. -/
theorem c9_prefix_filter_and_strip :
    (∀ (pfx env : String) (m : List (String × EnvVal)), pfx ≠ "" →
        hasPrefixGo env pfx = false → prepareEnv1 pfx m env = m) ∧
    (∀ (pfx env : String) (m : List (String × EnvVal)), pfx ≠ "" →
        hasPrefixGo env pfx = true →
        prepareEnv1 pfx m env = prepareEnv1 "" m (trimPrefixGo env (pfx ++ "_"))) ∧
    PrepareEnvs ["APPLE=1"] "APP" = [("APPLE", .str "1")] ∧
    PrepareEnvs ["APP_LE=1"] "APP" = [("LE", .str "1")] ∧
    PrepareEnvs ["BANANA=1"] "APP" = [] := by
  refine ⟨?_, ?_, rfl, rfl, rfl⟩
  · intro pfx env m hp hpre
    simp [prepareEnv1, keptEntry, hp, hpre]
  · intro pfx env m hp hpre
    simp [prepareEnv1, keptEntry, hp, hpre]

/-- Witness for `c9_prefix_filter_and_strip` at concrete inputs. -/
theorem c9_witness :
    ("APP" : String) ≠ "" ∧
    hasPrefixGo "BANANA=1" "APP" = false ∧
    hasPrefixGo "APPLE=1" "APP" = true ∧
    prepareEnv1 "APP" [] "BANANA=1" = [] ∧
    prepareEnv1 "APP" [] "APPLE=1" = prepareEnv1 "" [] (trimPrefixGo "APPLE=1" ("APP" ++ "_")) :=
  ⟨by decide, rfl, rfl,
    c9_prefix_filter_and_strip.1 "APP" "BANANA=1" [] (by decide) rfl,
    c9_prefix_filter_and_strip.2.1 "APP" "APPLE=1" [] (by decide) rfl⟩

/-- C10: the flat write of `insertIntoMap` happens unconditionally at
the level where the insertion runs (even when the nested insertion is
skipped), and after `PrepareEnvs` finishes a top-level flat key equal to
a kept entry's full (possibly prefix-stripped) name carries that entry's
value, later same-name entries overwriting earlier ones. -/
theorem c10_flat_key_last_wins :
    (∀ (m : List (String × EnvVal)) (keys : List String) (value : String), keys ≠ [] →
        lookupKV (insertIntoMap m keys value) (joinGo keys "_") = some (.str value)) ∧
    (∀ (pfx : String) (envs : List String) (f v : String),
        lastValue pfx envs f = some v →
        lookupKV (PrepareEnvs envs pfx) f = some (.str v)) := by
  constructor
  · exact lookupKV_insertIntoMap_join
  · intro pfx envs f v hv
    exact foldl_prepareEnv1_lastValue envs pfx f [] none (by simp) v hv

/-- Witness for `c10_flat_key_last_wins` at concrete inputs; the second
part also exercises the overwrite of an earlier same-name entry while a
blocking leaf (`"A" ↦ "1"`) is present. -/
theorem c10_witness :
    (["A", "B"] : List String) ≠ [] ∧
    lastValue "" ["A=1", "A_B=2", "A_B=3"] "A_B" = some "3" ∧
    lookupKV (insertIntoMap [] ["A", "B"] "7") (joinGo ["A", "B"] "_") = some (.str "7") ∧
    lookupKV (PrepareEnvs ["A=1", "A_B=2", "A_B=3"] "") "A_B" = some (.str "3") :=
  ⟨by simp, rfl,
    c10_flat_key_last_wins.1 [] ["A", "B"] "7" (by simp),
    c10_flat_key_last_wins.2 "" ["A=1", "A_B=2", "A_B=3"] "A_B" "3" rfl⟩

/-! ## The reflective field walker (`reflection.go`) -/

/-- The addressability properties Go's reflection reports for a field
occurrence (`CanSet`, `CanAddr`, `CanInterface`); they are inputs to the
walker's inclusion filters. -/
structure FieldProps where
  canSet : Bool
  canAddr : Bool
  canInterface : Bool
deriving DecidableEq

mutual
/-- A Go value as seen by `ReflectFieldsOf`: a non-struct value carries
its type name and kind name; a struct carries its type name and its
fields in declaration order. -/
inductive GoValue where
  | prim (tyName kindName : String) : GoValue
  | strukt (tyName : String) (fields : GoFields) : GoValue
/-- Struct fields in declaration order. -/
inductive GoFields where
  | nil : GoFields
  | cons (f : GoField) (rest : GoFields) : GoFields
/-- One struct field: its name, reflection properties, and value. -/
inductive GoField where
  | mk (fname : String) (props : FieldProps) (value : GoValue) : GoField
end

mutual
def gvSize : GoValue → Nat
  | .prim _ _ => 1
  | .strukt _ fs => 1 + gfsSize fs
def gfsSize : GoFields → Nat
  | .nil => 0
  | .cons (.mk _ _ v) rest => 1 + gvSize v + gfsSize rest
end

def GoValue.tyName : GoValue → String
  | .prim t _ => t
  | .strukt t _ => t

def GoValue.kindName : GoValue → String
  | .prim _ k => k
  | .strukt _ _ => "struct"

def GoValue.isStructKind : GoValue → Bool
  | .strukt _ _ => true
  | .prim _ _ => false

/-- `ReflectOptions` from `reflection.go`: tri-state inclusion filters
plus the opaque-override type set (`AsField`, modelled by type name). -/
structure ReflectOptions where
  CanAddr : Option Bool := none
  CanSet : Option Bool := none
  CanInterface : Option Bool := none
  AsField : List String := []

/-- `ReflectOptions.IsValid`: the field passes each tri-state filter
that is set. -/
def ReflectOptions.IsValid (o : ReflectOptions) (p : FieldProps) : Bool :=
  if (match o.CanSet with | some b => p.canSet != b | none => false) then false
  else if (match o.CanAddr with | some b => p.canAddr != b | none => false) then false
  else if (match o.CanInterface with | some b => p.canInterface != b | none => false) then false
  else true

/-- `ReflectOptions.IsField`: true when the type is listed in `AsField`
or the value is not of struct kind. -/
def ReflectOptions.IsField (o : ReflectOptions) (v : GoValue) : Bool :=
  if o.AsField.contains v.tyName then true
  else
    match v with
    | .strukt _ _ => false
    | .prim _ _ => true

/-- A `ReflectValue`: the field's value plus the owner chain; `root` is
the dereferenced input seeding the frame list. -/
inductive RNode where
  | root (v : GoValue)
  | child (v : GoValue) (fname : String) (props : FieldProps) (owner : RNode)

def RNode.val : RNode → GoValue
  | .root v => v
  | .child v _ _ _ => v

/-- One element of the walker's output sequence: a yielded field
descriptor or a yielded error. -/
inductive Yielded where
  | err (msg : String)
  | field (node : RNode)

/-- Process one frame's fields in declaration order: a field failing a
filter is skipped, a non-leaf (struct kind, not opaque-overridden) field
becomes a new frame, and every other field is yielded. -/
def processFrame (o : ReflectOptions) (owner : RNode) : GoFields → List Yielded × List RNode
  | .nil => ([], [])
  | .cons (.mk nm props v) rest =>
    let r := processFrame o owner rest
    if o.IsValid props = false then r
    else if o.IsField v = false then (r.1, .child v nm props owner :: r.2)
    else (.field (.child v nm props owner) :: r.1, r.2)

def nodeSize (n : RNode) : Nat := gvSize n.val

def queueSize : List RNode → Nat
  | [] => 0
  | n :: rest => nodeSize n + queueSize rest

theorem gvSize_pos (v : GoValue) : 1 ≤ gvSize v := by
  cases v <;> simp [gvSize]

theorem queueSize_append (a b : List RNode) :
    queueSize (a ++ b) = queueSize a + queueSize b := by
  induction a with
  | nil => simp [queueSize]
  | cons n rest ih => simp [queueSize, ih]; omega

theorem processFrame_frames_size (o : ReflectOptions) (owner : RNode) :
    ∀ fs : GoFields, queueSize (processFrame o owner fs).2 ≤ gfsSize fs
  | .nil => by simp [processFrame, queueSize]
  | .cons (.mk nm props v) rest => by
    have ih := processFrame_frames_size o owner rest
    simp only [processFrame, gfsSize]
    split
    · omega
    · split
      · simp only [queueSize, nodeSize, RNode.val]
        omega
      · simp only
        omega

/-- The frame-queue loop of `ReflectFieldsOf`: frames are visited
first-in first-visited, each frame's fields are processed in order, and
new frames are appended at the end of the queue. -/
def walkFields (o : ReflectOptions) (queue : List RNode) : List Yielded :=
  match queue with
  | [] => []
  | node :: rest =>
    match h : node.val with
    | .prim _ _ => walkFields o rest
    | .strukt _ fields =>
      (processFrame o node fields).1 ++ walkFields o (rest ++ (processFrame o node fields).2)
termination_by queueSize queue
decreasing_by
  · simp only [queueSize, nodeSize]
    exact Nat.lt_add_of_pos_left (gvSize_pos _)
  · have h1 := processFrame_frames_size o n fields
    have h2 : nodeSize n = 1 + gfsSize fields := by simp [nodeSize, h, gvSize]
    simp only [queueSize, queueSize_append]
    omega

/-- The input of `ReflectFieldsOf`: either a pointer to a value or a
non-pointer value of a given kind. -/
inductive GoInput where
  | ptr (v : GoValue)
  | nonPtr (kindName : String)

/-- `%q` formatting of a kind name. -/
def goQuote (s : String) : String := "\"" ++ s ++ "\""

/-- `ReflectFieldsOf` from `reflection.go`: a non-pointer input or a
pointer whose element is not a struct yields exactly one error and
stops; otherwise the frame-queue loop runs, seeded with the root. -/
def ReflectFieldsOf (inp : GoInput) (o : ReflectOptions) : List Yielded :=
  match inp with
  | .nonPtr k => [.err ("expect pointer, got " ++ goQuote k)]
  | .ptr v =>
    match v with
    | .prim _ k => [.err ("expect struct field, got " ++ goQuote k)]
    | .strukt _ _ => walkFields o [.root v]

/-- Every field occurrence along the owner chain passed the configured
inclusion filters. -/
def chainOk (o : ReflectOptions) : RNode → Bool
  | .root _ => true
  | .child _ _ props owner => o.IsValid props && chainOk o owner

/-! ## Walker lemmas -/

theorem processFrame_yield_mem (o : ReflectOptions) (owner : RNode) :
    ∀ (fs : GoFields) (n : RNode), Yielded.field n ∈ (processFrame o owner fs).1 →
      ∃ v nm props, n = .child v nm props owner ∧
        o.IsValid props = true ∧ o.IsField v = true
  | .nil, n => by simp [processFrame]
  | .cons (.mk nm props v) rest, n => by
    intro h
    have ih := processFrame_yield_mem o owner rest n
    simp only [processFrame] at h
    split at h
    · exact ih h
    · split at h
      · exact ih h
      · rcases List.mem_cons.mp h with h1 | h2
        · rename_i hv hf
          injection h1 with hn
          exact ⟨v, nm, props, hn, by simpa using hv, by simpa using hf⟩
        · exact ih h2

theorem processFrame_frame_mem (o : ReflectOptions) (owner : RNode) :
    ∀ (fs : GoFields) (f : RNode), f ∈ (processFrame o owner fs).2 →
      ∃ v nm props, f = .child v nm props owner ∧ o.IsValid props = true
  | .nil, f => by simp [processFrame]
  | .cons (.mk nm props v) rest, f => by
    intro h
    have ih := processFrame_frame_mem o owner rest f
    simp only [processFrame] at h
    split at h
    · exact ih h
    · split at h
      · rcases List.mem_cons.mp h with h1 | h2
        · rename_i hv hf
          exact ⟨v, nm, props, h1, by simpa using hv⟩
        · exact ih h2
      · exact ih h

/-- Invariant of the frame-queue loop: when every queued frame has an
all-valid owner chain, every yielded field descriptor passed the
`IsField` test and carries an all-valid owner chain. -/
theorem walkFields_mem (o : ReflectOptions) :
    ∀ (N : Nat) (queue : List RNode), queueSize queue ≤ N →
      (∀ q ∈ queue, chainOk o q = true) →
      ∀ n : RNode, Yielded.field n ∈ walkFields o queue →
        o.IsField n.val = true ∧ chainOk o n = true := by
  intro N
  induction N with
  | zero =>
    intro queue hsz hq n hmem
    cases queue with
    | nil => rw [walkFields] at hmem; simp at hmem
    | cons node rest =>
      exfalso
      have := gvSize_pos node.val
      simp only [queueSize, nodeSize] at hsz
      omega
  | succ N ihN =>
    intro queue hsz hq n hmem
    cases queue with
    | nil => rw [walkFields] at hmem; simp at hmem
    | cons node rest =>
      rw [walkFields] at hmem
      split at hmem
      · -- non-struct frame (unreachable in practice): just consume it
        rename_i t k hval
        refine ihN rest ?_ ?_ n hmem
        · have := gvSize_pos node.val
          simp only [queueSize, nodeSize] at hsz ⊢
          omega
        · exact fun q hqm => hq q (List.mem_cons_of_mem _ hqm)
      · rename_i ty fields hval
        rcases List.mem_append.mp hmem with h1 | h2
        · obtain ⟨v, nm, props, hn, hvd, hfd⟩ := processFrame_yield_mem o node fields n h1
          constructor
          · rw [hn]; simpa [RNode.val] using hfd
          · rw [hn]
            simp only [chainOk, hvd, Bool.true_and]
            exact hq node (by simp)
        · refine ihN (rest ++ (processFrame o node fields).2) ?_ ?_ n h2
          · have h1s := processFrame_frames_size o node fields
            have h2s : nodeSize node = 1 + gfsSize fields := by
              simp [nodeSize, hval, gvSize]
            simp only [queueSize, queueSize_append] at hsz ⊢
            omega
          · intro q hqmem
            rcases List.mem_append.mp hqmem with hr | hf
            · exact hq q (List.mem_cons_of_mem _ hr)
            · obtain ⟨v, nm, props, hfq, hvd⟩ := processFrame_frame_mem o node fields q hf
              rw [hfq]
              simp only [chainOk, hvd, Bool.true_and]
              exact hq node (by simp)

theorem mem_asField_of_isField_struct (o : ReflectOptions) (v : GoValue)
    (h : o.IsField v = true) (hs : v.isStructKind = true) : v.tyName ∈ o.AsField := by
  cases v with
  | prim t k => simp [GoValue.isStructKind] at hs
  | strukt t fs =>
    by_cases hc : o.AsField.contains (GoValue.tyName (.strukt t fs)) = true
    · exact List.mem_of_elem_eq_true hc
    · exfalso
      simp only [ReflectOptions.IsField, if_neg hc] at h
      exact absurd h (by simp)

/-! ## Claim theorems for the field walker -/

/-- C2: every field descriptor the walker yields passed the `IsField`
test — so a struct-kind value is yielded only when its type is in the
opaque-override set `AsField` — and the yielded field together with every
field along its owner chain passed all configured inclusion filters;
hence a field failing a filter is never an ancestor of any yielded
descriptor and none of its descendants are ever yielded. -/
theorem c2_walker_yields_only_leaves (inp : GoInput) (o : ReflectOptions) (n : RNode)
    (h : Yielded.field n ∈ ReflectFieldsOf inp o) :
    o.IsField n.val = true ∧
    (n.val.isStructKind = true → n.val.tyName ∈ o.AsField) ∧
    chainOk o n = true := by
  match inp with
  | .nonPtr k => simp [ReflectFieldsOf] at h
  | .ptr (.prim t k) => simp [ReflectFieldsOf] at h
  | .ptr (.strukt t fs) =>
    have hw := walkFields_mem o (queueSize [RNode.root (.strukt t fs)])
      [RNode.root (.strukt t fs)] (Nat.le_refl _)
      (by intro q hq; simp at hq; subst hq; rfl) n h
    exact ⟨hw.1, fun hs => mem_asField_of_isField_struct o n.val hw.1 hs, hw.2⟩

/-- Example traversal options: the network-range type is in the
opaque-override set. -/
def exampleOpts : ReflectOptions := { AsField := ["net.IPNet"] }

/-- Example opaque-override struct value (`net.IPNet`). -/
def exampleNet : GoValue := .strukt "net.IPNet" .nil

/-- Example root struct: a plain leaf, an opaque-override struct, and a
nested struct with one leaf. -/
def exampleStruct : GoValue :=
  .strukt "Config"
    (.cons (.mk "Name" ⟨true, true, true⟩ (.prim "string" "string"))
      (.cons (.mk "Net" ⟨true, true, true⟩ exampleNet)
        (.cons (.mk "Sub" ⟨true, true, true⟩
            (.strukt "Nested"
              (.cons (.mk "Inner" ⟨true, true, true⟩ (.prim "int" "int")) .nil)))
          .nil)))

/-- Witness for `c2_walker_yields_only_leaves`: the walker yields the
`net.IPNet`-typed field of the example struct as a leaf, and the
conclusions of the theorem hold for it. -/
theorem c2_witness :
    Yielded.field (.child exampleNet "Net" ⟨true, true, true⟩ (.root exampleStruct)) ∈
      ReflectFieldsOf (.ptr exampleStruct) exampleOpts ∧
    exampleOpts.IsField exampleNet = true ∧
    (exampleNet.isStructKind = true → exampleNet.tyName ∈ exampleOpts.AsField) ∧
    chainOk exampleOpts
      (.child exampleNet "Net" ⟨true, true, true⟩ (.root exampleStruct)) = true := by
  have hmem : Yielded.field
      (.child exampleNet "Net" ⟨true, true, true⟩ (.root exampleStruct)) ∈
      ReflectFieldsOf (.ptr exampleStruct) exampleOpts := by
    simp [ReflectFieldsOf, walkFields, processFrame, exampleStruct, exampleOpts,
      exampleNet, ReflectOptions.IsValid, ReflectOptions.IsField, GoValue.tyName,
      RNode.val]
  have hc := c2_walker_yields_only_leaves (.ptr exampleStruct) exampleOpts
    (.child exampleNet "Net" ⟨true, true, true⟩ (.root exampleStruct)) hmem
  exact ⟨hmem, hc.1, hc.2.1, hc.2.2⟩

/-- C3: a non-pointer input yields exactly one element, carrying the
error `expect pointer, got "<kind>"`, and a pointer to a non-struct
yields exactly one element, carrying `expect struct field, got
"<kind>"`; in both cases the output is that singleton, so no field
descriptor is produced. -/
theorem c3_malformed_root_single_error (k t : String) (o : ReflectOptions) :
    ReflectFieldsOf (.nonPtr k) o =
      [.err ("expect pointer, got \"" ++ k ++ "\"")] ∧
    ReflectFieldsOf (.ptr (.prim t k)) o =
      [.err ("expect struct field, got \"" ++ k ++ "\"")] :=
  ⟨rfl, rfl⟩

/-! ## The type-directed coercion engine (defaults loader)

Destination types carry the structure the dispatch inspects.  The
floating-point and complex kinds of the Go `switch` are outside the
embedding (their parsing is IEEE-754 arithmetic); every other case of
the dispatch is modelled. -/

/-- The (reflection view of the) type of a coercion destination. -/
inductive CTy where
  | tstr
  | tint (bits : Nat)
  | tuint (bits : Nat)
  | tbool
  | tdur
  | tip
  | tmask
  | tipnet
  | tslice (elem : CTy)
  | tarray (elem : CTy) (n : Nat)
  | tmap (key val : CTy)
  | tptr (elem : CTy)
  | tother (tyName kindName : String)
deriving DecidableEq

/-- A coercion destination's current value.  `none` in the slice, map,
pointer, and net positions models Go's `nil`. -/
inductive CVal where
  | vstr (s : String)
  | vint (bits : Nat) (v : Int)
  | vuint (bits : Nat) (v : Nat)
  | vbool (b : Bool)
  | vdur (ns : Int)
  | vip (bytes : Option (List Nat))
  | vmask (bytes : Option (List Nat))
  | vipnet (net : Option (List Nat × List Nat))
  | vslice (elem : CTy) (elems : Option (List CVal))
  | varray (elem : CTy) (elems : List CVal)
  | vmap (key val : CTy) (entries : Option (List (CVal × CVal)))
  | vptr (elem : CTy) (pointee : Option CVal)
  | vother (tyName kindName : String) (zero : Bool)

/-- `reflect.Value.Type()` of a destination value. -/
def typeOf : CVal → CTy
  | .vstr _ => .tstr
  | .vint b _ => .tint b
  | .vuint b _ => .tuint b
  | .vbool _ => .tbool
  | .vdur _ => .tdur
  | .vip _ => .tip
  | .vmask _ => .tmask
  | .vipnet _ => .tipnet
  | .vslice e _ => .tslice e
  | .varray e es => .tarray e es.length
  | .vmap k v _ => .tmap k v
  | .vptr e _ => .tptr e
  | .vother t k _ => .tother t k

/-- `reflect.New(ty).Elem()`: the zero value of a type. -/
def zeroOf : CTy → CVal
  | .tstr => .vstr ""
  | .tint b => .vint b 0
  | .tuint b => .vuint b 0
  | .tbool => .vbool false
  | .tdur => .vdur 0
  | .tip => .vip none
  | .tmask => .vmask none
  | .tipnet => .vipnet none
  | .tslice e => .vslice e none
  | .tarray e n => .varray e (List.replicate n (zeroOf e))
  | .tmap k v => .vmap k v none
  | .tptr e => .vptr e none
  | .tother t k => .vother t k true

mutual
/-- `reflect.Value.IsZero()`: `nil` for slices, maps, pointers and the
net types, emptiness for strings, `0`/`false` for numerics and booleans,
and element-wise zero for arrays. -/
def isZero : CVal → Bool
  | .vstr s => s == ""
  | .vint _ v => v == 0
  | .vuint _ v => v == 0
  | .vbool b => b == false
  | .vdur ns => ns == 0
  | .vip o => o.isNone
  | .vmask o => o.isNone
  | .vipnet o => o.isNone
  | .vslice _ o => o.isNone
  | .varray _ es => isZeroList es
  | .vmap _ _ o => o.isNone
  | .vptr _ o => o.isNone
  | .vother _ _ z => z
def isZeroList : List CVal → Bool
  | [] => true
  | v :: rest => isZero v && isZeroList rest
end

mutual
/-- Go equality on modelled destination values (used for map keys). -/
def cvalEq : CVal → CVal → Bool
  | .vstr a, .vstr b => a == b
  | .vint b1 v1, .vint b2 v2 => b1 == b2 && v1 == v2
  | .vuint b1 v1, .vuint b2 v2 => b1 == b2 && v1 == v2
  | .vbool a, .vbool b => a == b
  | .vdur a, .vdur b => a == b
  | .vip a, .vip b => a == b
  | .vmask a, .vmask b => a == b
  | .vipnet a, .vipnet b => a == b
  | .vslice e1 none, .vslice e2 none => e1 == e2
  | .vslice e1 (some l1), .vslice e2 (some l2) => e1 == e2 && cvalListEq l1 l2
  | .varray e1 l1, .varray e2 l2 => e1 == e2 && cvalListEq l1 l2
  | .vmap k1 v1 none, .vmap k2 v2 none => k1 == k2 && v1 == v2
  | .vmap k1 v1 (some l1), .vmap k2 v2 (some l2) =>
      k1 == k2 && v1 == v2 && cvalPairListEq l1 l2
  | .vptr e1 none, .vptr e2 none => e1 == e2
  | .vptr e1 (some a), .vptr e2 (some b) => e1 == e2 && cvalEq a b
  | .vother t1 k1 z1, .vother t2 k2 z2 => t1 == t2 && k1 == k2 && z1 == z2
  | _, _ => false
def cvalListEq : List CVal → List CVal → Bool
  | [], [] => true
  | a :: as', b :: bs' => cvalEq a b && cvalListEq as' bs'
  | _, _ => false
def cvalPairListEq : List (CVal × CVal) → List (CVal × CVal) → Bool
  | [], [] => true
  | (ka, va) :: as', (kb, vb) :: bs' =>
      cvalEq ka kb && cvalEq va vb && cvalPairListEq as' bs'
  | _, _ => false
end

/-! ### Models of the `strconv`, `time` and `net` parsers -/

/-- Decimal digit accumulation; `none` when a non-digit occurs. -/
def parseDigitsAux : List Char → Nat → Option Nat
  | [], acc => some acc
  | c :: rest, acc =>
    if c.isDigit then parseDigitsAux rest (acc * 10 + (c.toNat - 48)) else none

/-- Model of `strconv.ParseUint(s, 10, bits)`: non-empty decimal digits
without a sign, range-checked against the bit width. -/
def parseUint (s : String) (bits : Nat) : Except String Nat :=
  match s.toList with
  | [] => .error ("strconv.ParseUint: parsing " ++ goQuote s ++ ": invalid syntax")
  | ds =>
    match parseDigitsAux ds 0 with
    | none => .error ("strconv.ParseUint: parsing " ++ goQuote s ++ ": invalid syntax")
    | some v =>
      if v < 2 ^ bits then .ok v
      else .error ("strconv.ParseUint: parsing " ++ goQuote s ++ ": value out of range")

/-- Model of `strconv.ParseInt(s, 10, bits)`: optional sign, decimal
digits, two's-complement range check. -/
def parseInt (s : String) (bits : Nat) : Except String Int :=
  let p : Bool × List Char :=
    match s.toList with
    | '+' :: rest => (false, rest)
    | '-' :: rest => (true, rest)
    | l => (false, l)
  match parseDigitsAux p.2 0 with
  | none => .error ("strconv.ParseInt: parsing " ++ goQuote s ++ ": invalid syntax")
  | some v =>
    if p.2 = [] then .error ("strconv.ParseInt: parsing " ++ goQuote s ++ ": invalid syntax")
    else
      let x : Int := if p.1 then -(v : Int) else (v : Int)
      if -(2 ^ (bits - 1) : Int) ≤ x ∧ x ≤ 2 ^ (bits - 1) - 1 then .ok x
      else .error ("strconv.ParseInt: parsing " ++ goQuote s ++ ": value out of range")

/-- Model of `strconv.ParseBool`. -/
def parseBool (s : String) : Except String Bool :=
  if s = "1" ∨ s = "t" ∨ s = "T" ∨ s = "true" ∨ s = "TRUE" ∨ s = "True" then .ok true
  else if s = "0" ∨ s = "f" ∨ s = "F" ∨ s = "false" ∨ s = "FALSE" ∨ s = "False" then
    .ok false
  else .error ("strconv.ParseBool: parsing " ++ goQuote s ++ ": invalid syntax")

/-- Model of `strconv.Atoi` (`ParseInt(s, 10, 0)` at the 64-bit platform
`int` width). -/
def atoiGo (s : String) : Except String Int := parseInt s 64

/-- Nanoseconds per duration unit. -/
def durUnits : String → Option Int
  | "ns" => some 1
  | "us" => some 1000
  | "ms" => some 1000000
  | "s" => some 1000000000
  | "m" => some 60000000000
  | "h" => some 3600000000000
  | _ => none

/-- Split a duration body into (number, unit) components. -/
def durChunks : List Char → Option Nat → List Char → List (Nat × String) →
    Option (List (Nat × String))
  | [], cur, unit, acc =>
    match cur, unit with
    | some n, u :: us => some (acc ++ [(n, (u :: us).asString)])
    | _, _ => none
  | c :: rest, cur, unit, acc =>
    if c.isDigit then
      match unit with
      | [] => durChunks rest (some ((cur.getD 0) * 10 + (c.toNat - 48))) [] acc
      | u :: us =>
        match cur with
        | some n => durChunks rest (some (c.toNat - 48)) [] (acc ++ [(n, (u :: us).asString)])
        | none => none
    else
      match cur with
      | none => none
      | some _ => durChunks rest cur (unit ++ [c]) acc

/-- Model of `time.ParseDuration` for the integer-valued forms used by
the library (`"300ms"`, `"1h30m"`, …); fractional components and the
unicode microsecond spellings are outside the modelled fragment. -/
def parseDuration (s : String) : Except String Int :=
  let p : Bool × List Char :=
    match s.toList with
    | '+' :: rest => (false, rest)
    | '-' :: rest => (true, rest)
    | l => (false, l)
  if p.2 = ['0'] then .ok 0
  else
    match durChunks p.2 none [] [] with
    | none => .error ("time: invalid duration " ++ goQuote s)
    | some chunks =>
      match chunks.foldlM
          (fun acc (q : Nat × String) =>
            match durUnits q.2 with
            | some scale => some (acc + (q.1 : Int) * scale)
            | none => none)
          (0 : Int) with
      | none => .error ("time: unknown unit in duration " ++ goQuote s)
      | some total => .ok (if p.1 then -total else total)

/-- One dotted-quad component: decimal digits, at most three, value at
most 255, no leading zeros. -/
def parseIPv4Part (s : String) : Option Nat :=
  match s.toList with
  | [] => none
  | ['0'] => some 0
  | '0' :: _ => none
  | ds =>
    if ds.length ≤ 3 then
      match parseDigitsAux ds 0 with
      | some v => if v ≤ 255 then some v else none
      | none => none
    else none

/-- Model of `net.ParseIP` restricted to IPv4 dotted-quad addresses (the
IPv6 textual forms are outside the modelled fragment); `none` plays the
role of a `nil` result. -/
def parseIP (s : String) : Option (List Nat) :=
  match splitGo s '.' with
  | [a, b, c, d] =>
    match parseIPv4Part a, parseIPv4Part b, parseIPv4Part c, parseIPv4Part d with
    | some x, some y, some z, some w => some [x, y, z, w]
    | _, _, _, _ => none
  | _ => none

/-- Byte list of a mask with `ones` leading one bits over the given
number of bytes, as built by `net.CIDRMask`'s loop. -/
def maskBytes (ones : Nat) : Nat → List Nat
  | 0 => []
  | nb + 1 =>
    if 8 ≤ ones then 255 :: maskBytes (ones - 8) nb
    else (256 - 2 ^ (8 - ones)) :: maskBytes 0 nb

/-- Model of `net.CIDRMask(ones, bits)`: `none` models the `nil` mask
returned for an out-of-range prefix length. -/
def cidrMask (ones : Int) (bits : Nat) : Option (List Nat) :=
  if ones < 0 ∨ (bits : Int) < ones then none
  else some (maskBytes ones.toNat (bits / 8))

/-- Model of `net.ParseCIDR` restricted to IPv4 (`"a.b.c.d/n"`): the
masked network address together with the mask. -/
def parseCIDR (s : String) : Except String (List Nat × List Nat) :=
  match splitN2Go s '/' with
  | [addr, maskLen] =>
    match parseIP addr, parseIPv4Part maskLen with
    | some ip, some n =>
      if n ≤ 32 then
        let msk := maskBytes n 4
        .ok ((List.zip ip msk).map (fun q => q.1 &&& q.2), msk)
      else .error ("invalid CIDR address: " ++ s)
    | _, _ => .error ("invalid CIDR address: " ++ s)
  | _ => .error ("invalid CIDR address: " ++ s)

/-! ### The dispatch itself -/

/-- Go `SetMapIndex` on the association-list model of a map: a later
insert with an equal key overwrites. -/
def insertPairKV (m : List (CVal × CVal)) (k v : CVal) : List (CVal × CVal) :=
  match m with
  | [] => [(k, v)]
  | (k', v') :: rest =>
    if cvalEq k' k then (k, v) :: rest else (k', v') :: insertPairKV rest k v

/-- The generic structural dispatch of `setDefaultValue` (the `switch`
on the destination's reflection kind), reached only for a zero-valued
destination and a non-empty raw string.  The recursive element calls
mirror `setDefaultValue(elem, item)` on a freshly allocated zero
element: for a non-empty `item` that is exactly this dispatch, and for
an empty `item` it leaves the fresh zero value (the guards in the slice
and array branches, and the inline conditionals in the map and pointer
branches, reproduce this).  `net.IP` and `net.IPMask` have reflection
kind slice-of-`uint8` and `net.IPNet` has kind struct, so those types
fall into the slice and `default` cases respectively when this dispatch
is reached directly. -/
def coerceVal : CTy → String → Except String CVal
  | .tstr, value => .ok (.vstr value)
  | .tuint bits, value => (parseUint value bits).map (.vuint bits)
  | .tint bits, value => (parseInt value bits).map (.vint bits)
  | .tdur, value => (parseInt value 64).map .vdur
  | .tbool, value => (parseBool value).map .vbool
  | .tip, value =>
    ((splitGo value ',').foldlM
        (fun acc item =>
          if item = "" then Except.ok acc
          else (parseUint item 8).map (fun b => acc ++ [b]))
        ([] : List Nat)).map (fun bs => .vip (some bs))
  | .tmask, value =>
    ((splitGo value ',').foldlM
        (fun acc item =>
          if item = "" then Except.ok acc
          else (parseUint item 8).map (fun b => acc ++ [b]))
        ([] : List Nat)).map (fun bs => .vmask (some bs))
  | .tipnet, _ => .error "unsupported type: net.IPNet"
  | .tslice elem, value =>
    ((splitGo value ',').foldlM
        (fun acc item =>
          if item = "" then Except.ok acc
          else (coerceVal elem item).map (fun e => acc ++ [e]))
        ([] : List CVal)).map (fun es => .vslice elem (some es))
  | .tarray elem n, value =>
    if n < (splitGo value ',').length then
      .error ("array length exceeds " ++ toString n ++ " elements")
    else
      ((splitGo value ',').enum.foldlM
          (fun arr (q : Nat × String) =>
            if q.2 = "" then Except.ok arr
            else (coerceVal elem q.2).map (fun e => arr.set q.1 e))
          (List.replicate n (zeroOf elem))).map (.varray elem)
  | .tmap kt vt, value =>
    ((splitGo value ',').foldlM
        (fun acc item =>
          match splitGo item ':' with
          | [kraw, vraw] => do
            let kv ← if kraw = "" then Except.ok (zeroOf kt) else coerceVal kt kraw
            let vv ← if vraw = "" then Except.ok (zeroOf vt) else coerceVal vt vraw
            Except.ok (insertPairKV acc kv vv)
          | _ => Except.ok acc)
        ([] : List (CVal × CVal))).map (fun es => .vmap kt vt (some es))
  | .tptr elem, value =>
    (if value = "" then Except.ok (zeroOf elem) else coerceVal elem value).map
      (fun e => .vptr elem (some e))
  | .tother tyName _, _ => .error ("unsupported type: " ++ tyName)

/-- `setDefaultValue` from the defaults loader: a no-op returning
success on an empty raw string or an already non-zero destination,
otherwise the kind dispatch runs; on error the destination is untouched
(the caller keeps its old value). -/
def setDefaultValue (v : CVal) (value : String) : Except String CVal :=
  if value = "" ∨ isZero v = false then .ok v
  else coerceVal (typeOf v) value

/-- Outcome of `tryCustomTypes`: `pass` is a `nil` return with the field
untouched (processing continues with `setDefaultValue`), `done` is a set
field plus `ErrEnvSetterBreak` (the field is finished), `fail` is any
other error. -/
inductive TCRes where
  | pass (v : CVal)
  | done (v : CVal)
  | fail (e : String)

/-- The special-format type switch of `tryCustomTypes` (reached when
the raw value is non-empty and the field is zero), factored out by the
scrutinised type: `time.Duration`, `net.IP`, `net.IPMask`, `net.IPNet`
are handled, every other type falls to the `default` arm returning
`nil` (`pass`). -/
def tcDispatch (ty : CTy) (v : CVal) (value : String) : TCRes :=
  match ty with
  | .tdur =>
    match parseDuration value with
    | .error e => .fail e
    | .ok d => .done (.vdur d)
  | .tip =>
    match parseIP value with
    | some ip => .done (.vip (some ip))
    | none =>
      if value ≠ "" then .fail ("invalid IP address " ++ goQuote value)
      else .done (.vip none)
  | .tmask =>
    match atoiGo (trimPrefixGo value "/") with
    | .error e => .fail e
    | .ok pl => .done (.vmask (cidrMask pl 32))
  | .tipnet =>
    match parseCIDR value with
    | .error e => .fail e
    | .ok pr => .done (.vipnet (some pr))
  | _ => .pass v

/-- `tryCustomTypes` from the defaults loader: early `nil` return on an
empty raw string or a non-zero field; otherwise the special-format type
switch runs. -/
def tryCustomTypes (v : CVal) (value : String) : TCRes :=
  if value = "" ∨ isZero v = false then .pass v
  else tcDispatch (typeOf v) v value

/-- The per-field body of the `SetDefaults` loop: the special-format
stage runs first; `ErrEnvSetterBreak` (`done`) skips the generic stage,
any other error aborts the field, and otherwise `setDefaultValue`
runs. -/
def processField (v : CVal) (value : String) : Except String CVal :=
  match tryCustomTypes v value with
  | .done v' => .ok v'
  | .fail e => .error e
  | .pass v' => setDefaultValue v' value

/-! ### Coercion lemmas -/

/-- The four exactly-matched special-format destination types. -/
def isSpecialTy : CTy → Bool
  | .tdur => true
  | .tip => true
  | .tmask => true
  | .tipnet => true
  | _ => false

theorem exceptMap_eq_ok {α β : Type} (f : α → β) (e : Except String α) (b : β)
    (h : e.map f = .ok b) : ∃ a, e = .ok a ∧ b = f a := by
  cases e with
  | error e' => simp [Except.map] at h
  | ok a =>
    simp only [Except.map, Except.ok.injEq] at h
    exact ⟨a, rfl, h.symm⟩

theorem exceptMap_map {α β γ : Type} (f : α → β) (g : β → γ) (e : Except String α) :
    (e.map f).map g = e.map (fun a => g (f a)) := by
  cases e <;> rfl

/-- Stepwise invariant preservation along an `Except`-valued left fold. -/
theorem exceptFoldlM_ok_ind {α β : Type} (f : β → α → Except String β)
    (P : β → Prop) (hstep : ∀ b a b', P b → f b a = .ok b' → P b') :
    ∀ (l : List α) (b b' : β), P b → l.foldlM f b = .ok b' → P b'
  | [], b, b' => by
    intro hb h
    rw [List.foldlM_nil] at h
    injection h with h'
    rwa [← h']
  | a :: l, b, b' => by
    intro hb h
    rw [List.foldlM_cons] at h
    cases hf : f b a with
    | error e =>
      rw [hf] at h
      exact absurd h (by simp [Bind.bind, Except.bind])
    | ok b1 =>
      rw [hf] at h
      exact exceptFoldlM_ok_ind f P hstep l b1 b' (hstep b a b1 hb hf)
        (by simpa [Bind.bind, Except.bind] using h)

theorem arrayFold_length (elem : CTy) (items : List (Nat × String))
    (arr arr' : List CVal)
    (h : items.foldlM
        (fun arr q =>
          if q.2 = "" then Except.ok arr
          else (coerceVal elem q.2).map (fun e => arr.set q.1 e)) arr = .ok arr') :
    arr'.length = arr.length := by
  refine exceptFoldlM_ok_ind _ (fun b => b.length = arr.length) ?_ items arr arr' rfl h
  intro b q b' hb hf
  split at hf
  · injection hf with h'; rwa [← h']
  · obtain ⟨e, _, hb'⟩ := exceptMap_eq_ok _ _ _ hf
    rw [hb', List.length_set]
    exact hb

/-- The generic dispatch produces a value of the destination's type. -/
theorem coerceVal_typeOf (ty : CTy) (value : String) (w : CVal)
    (h : coerceVal ty value = .ok w) : typeOf w = ty := by
  cases ty with
  | tstr =>
    unfold coerceVal at h
    injection h with h'
    rw [← h']; rfl
  | tint bits =>
    obtain ⟨a, _, hw⟩ := exceptMap_eq_ok _ _ _ h
    rw [hw]; rfl
  | tuint bits =>
    obtain ⟨a, _, hw⟩ := exceptMap_eq_ok _ _ _ h
    rw [hw]; rfl
  | tbool =>
    obtain ⟨a, _, hw⟩ := exceptMap_eq_ok _ _ _ h
    rw [hw]; rfl
  | tdur =>
    obtain ⟨a, _, hw⟩ := exceptMap_eq_ok _ _ _ h
    rw [hw]; rfl
  | tip =>
    obtain ⟨a, _, hw⟩ := exceptMap_eq_ok _ _ _ h
    rw [hw]; rfl
  | tmask =>
    obtain ⟨a, _, hw⟩ := exceptMap_eq_ok _ _ _ h
    rw [hw]; rfl
  | tipnet => exact absurd h (by simp [coerceVal])
  | tslice elem =>
    obtain ⟨a, _, hw⟩ := exceptMap_eq_ok _ _ _ h
    rw [hw]; rfl
  | tarray elem n =>
    unfold coerceVal at h
    split at h
    · exact absurd h (by simp)
    · obtain ⟨arr, ha, hw⟩ := exceptMap_eq_ok _ _ _ h
      have hlen := arrayFold_length elem _ _ _ ha
      rw [hw]
      simp [typeOf, hlen]
  | tmap kt vt =>
    obtain ⟨a, _, hw⟩ := exceptMap_eq_ok _ _ _ h
    rw [hw]; rfl
  | tptr elem =>
    obtain ⟨a, _, hw⟩ := exceptMap_eq_ok _ _ _ h
    rw [hw]; rfl
  | tother t k => exact absurd h (by simp [coerceVal])

theorem tcDispatch_pass_of_not_special (ty : CTy) (v : CVal) (value : String)
    (h : isSpecialTy ty = false) : tcDispatch ty v value = .pass v := by
  cases ty <;> first | rfl | simp [isSpecialTy] at h

theorem tcDispatch_ne_pass_of_special (ty : CTy) (v w : CVal) (value : String)
    (hs : isSpecialTy ty = true) : tcDispatch ty v value ≠ .pass w := by
  intro h
  cases ty
  case tdur =>
    unfold tcDispatch at h
    cases hp : parseDuration value <;> rw [hp] at h <;> simp at h
  case tip =>
    unfold tcDispatch at h
    cases hp : parseIP value <;> rw [hp] at h
    · by_cases hv : value = "" <;> simp [hv] at h
    · simp at h
  case tmask =>
    unfold tcDispatch at h
    cases hp : atoiGo (trimPrefixGo value "/") <;> rw [hp] at h <;> simp at h
  case tipnet =>
    unfold tcDispatch at h
    cases hp : parseCIDR value <;> rw [hp] at h <;> simp at h
  all_goals simp [isSpecialTy] at hs

theorem tcDispatch_done_type (ty : CTy) (v w : CVal) (value : String)
    (h : tcDispatch ty v value = .done w) : typeOf w = ty := by
  cases ty
  case tdur =>
    unfold tcDispatch at h
    cases hp : parseDuration value <;> rw [hp] at h
    · simp at h
    · injection h with h'; rw [← h']; rfl
  case tip =>
    unfold tcDispatch at h
    cases hp : parseIP value <;> rw [hp] at h
    · by_cases hv : value = "" <;> simp [hv] at h
      · rw [← h]; rfl
    · injection h with h'; rw [← h']; rfl
  case tmask =>
    unfold tcDispatch at h
    cases hp : atoiGo (trimPrefixGo value "/") <;> rw [hp] at h
    · simp at h
    · injection h with h'; rw [← h']; rfl
  case tipnet =>
    unfold tcDispatch at h
    cases hp : parseCIDR value <;> rw [hp] at h
    · simp at h
    · injection h with h'; rw [← h']; rfl
  all_goals exact absurd h (by simp [tcDispatch])

theorem tcDispatch_ignores_value_on_special (ty : CTy) (a b : CVal) (value : String)
    (hs : isSpecialTy ty = true) : tcDispatch ty a value = tcDispatch ty b value := by
  cases ty <;> first | rfl | simp [isSpecialTy] at hs

theorem tryCustomTypes_pass_eq (v w : CVal) (value : String)
    (h : tryCustomTypes v value = .pass w) : w = v := by
  unfold tryCustomTypes at h
  split at h
  · injection h with h'; exact h'.symm
  · by_cases hs : isSpecialTy (typeOf v) = true
    · exact absurd h (tcDispatch_ne_pass_of_special _ _ _ _ hs)
    · rw [tcDispatch_pass_of_not_special _ _ _ (by simpa using hs)] at h
      injection h with h'; exact h'.symm

theorem processField_noop (v : CVal) (value : String)
    (h : value = "" ∨ isZero v = false) : processField v value = .ok v := by
  have h1 : tryCustomTypes v value = .pass v := by
    unfold tryCustomTypes; rw [if_pos h]
  have h2 : setDefaultValue v value = .ok v := by
    unfold setDefaultValue; rw [if_pos h]
  unfold processField
  rw [h1]
  exact h2

theorem setDefaultValue_dispatch (v : CVal) (value : String)
    (hne : value ≠ "") (hz : isZero v = true) :
    setDefaultValue v value = coerceVal (typeOf v) value := by
  unfold setDefaultValue
  rw [if_neg]
  rintro (h1 | h2)
  · exact hne h1
  · rw [hz] at h2; cases h2

theorem tryCustomTypes_dispatch (v : CVal) (value : String)
    (hne : value ≠ "") (hz : isZero v = true) :
    tryCustomTypes v value = tcDispatch (typeOf v) v value := by
  unfold tryCustomTypes
  rw [if_neg]
  rintro (h1 | h2)
  · exact hne h1
  · rw [hz] at h2; cases h2

/-- Support of the second half of C4: whenever the first application
succeeded with result `v'`, the second application on `v'` with the same
raw string succeeds and leaves `v'` unchanged. -/
theorem processField_idem (v v' : CVal) (value : String)
    (h : processField v value = .ok v') : processField v' value = .ok v' := by
  by_cases hc : value = "" ∨ isZero v = false
  · have h0 := processField_noop v value hc
    rw [h0] at h
    injection h with h'
    rw [← h']
    exact h0
  · have hne : value ≠ "" := fun he => hc (Or.inl he)
    have hz : isZero v = true := by
      cases hzn : isZero v with
      | false => exact absurd (Or.inr hzn) hc
      | true => rfl
    unfold processField at h
    rw [tryCustomTypes_dispatch v value hne hz] at h
    by_cases hsp : isSpecialTy (typeOf v) = true
    · cases hdp : tcDispatch (typeOf v) v value with
      | pass w => exact absurd hdp (tcDispatch_ne_pass_of_special _ _ _ _ hsp)
      | fail e => rw [hdp] at h; exact absurd h (by simp)
      | done w =>
        rw [hdp] at h
        injection h with h'
        rw [h'] at hdp
        have hty : typeOf v' = typeOf v := tcDispatch_done_type _ _ _ _ hdp
        by_cases hz2 : isZero v' = false
        · exact processField_noop v' value (Or.inr hz2)
        · have hz2' : isZero v' = true := by
            cases hzn : isZero v' with
            | false => exact absurd hzn hz2
            | true => rfl
          unfold processField
          rw [tryCustomTypes_dispatch v' value hne hz2', hty,
            tcDispatch_ignores_value_on_special _ v' v value hsp, hdp]
    · rw [tcDispatch_pass_of_not_special _ _ _ (by simpa using hsp)] at h
      have h' : coerceVal (typeOf v) value = .ok v' := by
        rw [← setDefaultValue_dispatch v value hne hz]; exact h
      have hty : typeOf v' = typeOf v := coerceVal_typeOf _ _ _ h'
      by_cases hz2 : isZero v' = false
      · exact processField_noop v' value (Or.inr hz2)
      · have hz2' : isZero v' = true := by
          cases hzn : isZero v' with
          | false => exact absurd hzn hz2
          | true => rfl
        unfold processField
        rw [tryCustomTypes_dispatch v' value hne hz2', hty,
          tcDispatch_pass_of_not_special _ _ _ (by simpa using hsp)]
        show setDefaultValue v' value = .ok v'
        rw [setDefaultValue_dispatch v' value hne hz2', hty]
        exact h'

/-- The slice-branch fold equals filtering out the empty segments and
coercing the remaining segments in order. -/
theorem sliceFold_eq_filter_mapM (elem : CTy) :
    ∀ (items : List String) (acc : List CVal),
      items.foldlM
          (fun acc item =>
            if item = "" then Except.ok acc
            else (coerceVal elem item).map (fun e => acc ++ [e])) acc =
        ((items.filter (fun i => i != "")).mapM (coerceVal elem)).map
          (fun es => acc ++ es)
  | [], acc => by
    rw [List.foldlM_nil, List.filter_nil, List.mapM_nil]
    simp [Except.map, pure, Except.pure]
  | item :: rest, acc => by
    have ih := sliceFold_eq_filter_mapM elem rest
    by_cases hi : item = ""
    · subst hi
      have hfil : (("" : String) :: rest).filter (fun i => i != "") =
          rest.filter (fun i => i != "") := by simp
      rw [List.foldlM_cons, hfil]
      exact ih acc
    · have hfil : (item :: rest).filter (fun i => i != "") =
          item :: rest.filter (fun i => i != "") := by simp [hi]
      rw [List.foldlM_cons, hfil, List.mapM_cons]
      simp only [if_neg hi]
      cases hcv : coerceVal elem item with
      | error e =>
        simp [Except.map, Bind.bind, Except.bind]
      | ok e =>
        simp only [Except.map, Bind.bind, Except.bind] at ih ⊢
        rw [ih (acc ++ [e])]
        cases hm : (rest.filter (fun i => i != "")).mapM (coerceVal elem) <;>
          simp [Except.map, Bind.bind, Except.bind, pure, Except.pure]

/-! ## Claim theorems for the coercion engine -/

/-- C4: coercion of a raw string into a destination slot is a no-op
returning success whenever the raw string is empty or the slot already
holds a non-zero value for its type, and applying the same coercion
twice to the same destination with the same input leaves the value
unchanged after the first fill. -/
theorem c4_coercion_noop_idempotent :
    (∀ (v : CVal) (value : String), value = "" ∨ isZero v = false →
        processField v value = .ok v) ∧
    (∀ (v v' : CVal) (value : String), processField v value = .ok v' →
        processField v' value = .ok v') :=
  ⟨processField_noop, processField_idem⟩

/-- Witness for `c4_coercion_noop_idempotent` at concrete inputs: a
no-op on an empty raw string, a no-op on a non-zero slot, and the second
application after a successful first fill. -/
theorem c4_witness :
    processField (.vstr "hi") "" = .ok (.vstr "hi") ∧
    processField (.vint 64 7) "3" = .ok (.vint 64 7) ∧
    processField (.vstr "") "x" = .ok (.vstr "x") ∧
    processField (.vstr "x") "x" = .ok (.vstr "x") :=
  ⟨c4_coercion_noop_idempotent.1 (.vstr "hi") "" (Or.inl rfl),
   c4_coercion_noop_idempotent.1 (.vint 64 7) "3" (Or.inr (by decide)),
   rfl,
   c4_coercion_noop_idempotent.2 (.vstr "") (.vstr "x") "x" rfl⟩

/-- C5 (amended): when the destination's exact type is one of the
special-cased formats (duration, address, mask, range), the per-field
coercion is decided entirely by `tryCustomTypes` — the generic kind
dispatch contributes nothing, whether the special handling succeeds or
fails; and a mask destination strips a leading `/` when present, parses
the remainder as an integer, and builds a fixed 32-bit mask from it. -/
theorem c5_special_types_bypass_generic (v : CVal) (value : String)
    (h : isSpecialTy (typeOf v) = true) :
    (processField v value =
      match tryCustomTypes v value with
      | .done w => .ok w
      | .fail e => .error e
      | .pass w => .ok w) ∧
    (typeOf v = .tmask → isZero v = true → value ≠ "" →
      tryCustomTypes v value =
        match atoiGo (trimPrefixGo value "/") with
        | .error e => .fail e
        | .ok pl => .done (.vmask (cidrMask pl 32))) := by
  constructor
  · by_cases hc : value = "" ∨ isZero v = false
    · have h1 : tryCustomTypes v value = .pass v := by
        unfold tryCustomTypes; rw [if_pos hc]
      rw [h1, processField_noop v value hc]
    · have hne : value ≠ "" := fun he => hc (Or.inl he)
      have hz : isZero v = true := by
        cases hzn : isZero v with
        | false => exact absurd (Or.inr hzn) hc
        | true => rfl
      unfold processField
      rw [tryCustomTypes_dispatch v value hne hz]
      cases hdp : tcDispatch (typeOf v) v value with
      | pass w => exact absurd hdp (tcDispatch_ne_pass_of_special _ _ _ _ h)
      | done w => rfl
      | fail e => rfl
  · intro hm hz hne
    rw [tryCustomTypes_dispatch v value hne hz, hm]
    rfl

/-- C5 counterexample: a mask destination does not require the leading
`/` — the bare string `"24"` is also accepted, because the strip is a
`TrimPrefix` that leaves the string unchanged when the separator is
absent. -/
theorem c5_counterexample :
    tryCustomTypes (.vmask none) "24" = .done (.vmask (some [255, 255, 255, 0])) ∧
    processField (.vmask none) "24" = .ok (.vmask (some [255, 255, 255, 0])) :=
  ⟨rfl, rfl⟩

/-- Witness for `c5_special_types_bypass_generic` at a concrete mask
destination and input. -/
theorem c5_witness :
    isSpecialTy (typeOf (.vmask none)) = true ∧
    processField (.vmask none) "/24" = .ok (.vmask (some [255, 255, 255, 0])) ∧
    tryCustomTypes (.vmask none) "/24" =
      (match atoiGo (trimPrefixGo "/24" "/") with
        | .error e => .fail e
        | .ok pl => .done (.vmask (cidrMask pl 32))) := by
  refine ⟨rfl, ?_,
    (c5_special_types_bypass_generic (.vmask none) "/24" rfl).2 rfl rfl (by decide)⟩
  rw [(c5_special_types_bypass_generic (.vmask none) "/24" rfl).1]
  rfl

/-- C6: coercing into a dynamically sized sequence splits on comma and
drops empty segments — the remaining segments are recursively coerced
in order — so the default `"1,2,3,,"` yields exactly the three-element
sequence `[1, 2, 3]`. -/
theorem c6_slice_drops_empty_segments :
    (coerceVal (.tslice (.tint 64)) "1,2,3,," =
      .ok (.vslice (.tint 64) (some [.vint 64 1, .vint 64 2, .vint 64 3]))) ∧
    (∀ (elem : CTy) (value : String),
        coerceVal (.tslice elem) value =
          (((splitGo value ',').filter (fun i => i != "")).mapM (coerceVal elem)).map
            (fun es => .vslice elem (some es))) := by
  constructor
  · rfl
  · intro elem value
    unfold coerceVal
    rw [sliceFold_eq_filter_mapM elem (splitGo value ',') [], exceptMap_map]
    cases hm : ((splitGo value ',').filter (fun i => i != "")).mapM (coerceVal elem) <;>
      simp [Except.map]

/-- C7: coercing into a fixed-size array splits on comma; when the
segment count exceeds the capacity `n` it fails with the error naming
the capacity; otherwise the result is an `n`-element array of the
element type, each non-empty segment assigned at its positional index
while an empty segment leaves the zero value — so `",5,6"` against a
3-element integer array yields `[0, 5, 6]`. -/
theorem c7_array_positional :
    (coerceVal (.tarray (.tint 64) 3) ",5,6" =
      .ok (.varray (.tint 64) [.vint 64 0, .vint 64 5, .vint 64 6])) ∧
    (∀ (elem : CTy) (n : Nat) (value : String),
        n < (splitGo value ',').length →
        coerceVal (.tarray elem n) value =
          .error ("array length exceeds " ++ toString n ++ " elements")) ∧
    (∀ (elem : CTy) (n : Nat) (value : String) (w : CVal),
        coerceVal (.tarray elem n) value = .ok w → typeOf w = .tarray elem n) := by
  refine ⟨rfl, ?_, ?_⟩
  · intro elem n value hlt
    unfold coerceVal
    rw [if_pos hlt]
  · intro elem n value w h
    exact coerceVal_typeOf _ _ _ h

/-- Witness for `c7_array_positional` at concrete inputs. -/
theorem c7_witness :
    3 < (splitGo "1,2,3,4" ',').length ∧
    coerceVal (.tarray (.tint 64) 3) "1,2,3,4" =
      .error ("array length exceeds " ++ toString 3 ++ " elements") ∧
    typeOf (.varray (.tint 64) [.vint 64 0, .vint 64 5, .vint 64 6]) =
      .tarray (.tint 64) 3 :=
  ⟨by decide,
   c7_array_positional.2.1 (.tint 64) 3 "1,2,3,4" (by decide),
   c7_array_positional.2.2 (.tint 64) 3 ",5,6" _ rfl⟩

/-! ## The required-field validator (`loader_required.go`) -/

mutual
/-- A value as inspected by `collectMissingFields`: a non-struct leaf
(carrying its zero-ness) or a struct with fields in declaration
order. -/
inductive RqVal where
  | leaf (zero : Bool) : RqVal
  | strukt (fields : RqFields) : RqVal
/-- Struct fields in declaration order. -/
inductive RqFields where
  | nil : RqFields
  | cons (f : RqField) (rest : RqFields) : RqFields
/-- One struct field: its name, its type's string form, whether it can
be interfaced (exported), its `required` tag, and its value. -/
inductive RqField where
  | mk (fname tyName : String) (canInterface : Bool) (requiredTag : String)
      (value : RqVal) : RqField
end

/-- `ErrMissingField` from `loader_required.go` (the `Type` field is
spelled `Ty` because `Type` is reserved). -/
structure ErrMissingField where
  Field : String
  Ty : String
  Path : String

/-- `ErrMissingField.Error()`: nested fields are annotated with their
dotted path. -/
def ErrMissingField.errMsg (e : ErrMissingField) : String :=
  if e.Field = e.Path then
    "field `" ++ e.Field ++ "` <" ++ e.Ty ++ "> is required"
  else
    "field `" ++ e.Field ++ "` <" ++ e.Ty ++ "> in path `" ++ e.Path ++ "` is required"

/-- `buildFieldPath`. -/
def buildFieldPath (fname parentPath : String) : String :=
  if parentPath ≠ "" then parentPath ++ "." ++ fname else fname

mutual
/-- `collectMissingFields`: recursively inspect a struct value and
collect the missing required fields; the loop body over a field list
is factored as `collectField`. -/
def collectMissingFields : RqVal → String → List ErrMissingField
  | .leaf _, _ => []
  | .strukt fs, parentPath => collectFields fs parentPath
/-- The field loop of `collectMissingFields`, appending each field's
contribution in declaration order. -/
def collectFields : RqFields → String → List ErrMissingField
  | .nil, _ => []
  | .cons f rest, parentPath =>
    collectField f parentPath ++ collectFields rest parentPath
/-- One iteration of the loop: unexported fields are skipped, a
struct-kind field is recursed into with the extended path (before its
own `required` tag is even consulted), and a leaf field is reported
when its `required` tag demands a value and the field is zero. -/
def collectField : RqField → String → List ErrMissingField
  | .mk fname tyName ci req val, parentPath =>
    if ci = false then []
    else
      match val with
      | .strukt fs' => collectFields fs' (buildFieldPath fname parentPath)
      | .leaf zero =>
        if req = "" ∨ req = "false" ∨ req = "-" then []
        else if zero = false then []
        else [⟨fname, tyName, buildFieldPath fname parentPath⟩]
end

/-- `formatMissingFieldsError`: the header line and one line per
missing field, joined with `"\n\t- "`. -/
def formatMissingFieldsError (missing : List ErrMissingField) : String :=
  joinGo ("missing required fields:" :: missing.map ErrMissingField.errMsg) "\n\t- "

/-- The collection-and-report part of `ValidateRequiredFields`, on the
struct the input pointer resolves to: collect across the whole graph,
then report either nothing or the single aggregated error. -/
def ValidateRequiredFields (fs : RqFields) : Option String :=
  let missing := collectMissingFields (.strukt fs) ""
  if missing.length > 0 then some (formatMissingFieldsError missing) else none

/-- Concatenation of field lists. -/
def rqAppend : RqFields → RqFields → RqFields
  | .nil, gs => gs
  | .cons f rest, gs => .cons f (rqAppend rest gs)

theorem stringJoin_cons (a : String) (l : List String) :
    String.join (a :: l) = a ++ String.join l := by
  simp [String.join_eq]
  rfl

theorem joinGo_cons_eq_join (sep : String) :
    ∀ (xs : List String) (x : String),
      joinGo (x :: xs) sep = x ++ String.join (xs.map (fun s => sep ++ s))
  | [], x => by simp [joinGo, String.join]
  | y :: ys, x => by
    have ih := joinGo_cons_eq_join sep ys y
    show x ++ sep ++ joinGo (y :: ys) sep = _
    rw [ih, List.map_cons, stringJoin_cons]
    simp [String.append_assoc]

theorem collectFields_append (p : String) :
    ∀ fs1 fs2 : RqFields,
      collectFields (rqAppend fs1 fs2) p = collectFields fs1 p ++ collectFields fs2 p
  | .nil, fs2 => by simp [rqAppend, collectFields]
  | .cons f rest, fs2 => by
    have ih := collectFields_append p rest fs2
    show collectField f p ++ collectFields (rqAppend rest fs2) p =
      (collectField f p ++ collectFields rest p) ++ collectFields fs2 p
    rw [ih, List.append_assoc]

/-- Example record: a missing required top-level field and a missing
required field inside a nested struct. -/
def exampleRequired : RqFields :=
  .cons (.mk "Field1" "string" true "true" (.leaf true))
    (.cons (.mk "Anonymous" "struct" true "true"
        (.strukt (.cons (.mk "Field2" "string" true "true" (.leaf true)) .nil)))
      .nil)

/-! ## Claim theorem for the required-field validator -/

/-- C8: required-field validation aggregates every violation into one
multi-line error — the header `"missing required fields:"` followed by
one `"\n\t- field ` `<Name>` ` <<Type>> is required"` line per missing
field, nested fields annotated with `"in path ` `<Dotted.Path>` `"` —
and the collection does not stop at the first miss: it distributes over
concatenation of the field list, and a nested struct contributes the
violations of its own fields under the extended dotted path while the
remaining fields still contribute theirs.  The example record missing
`Field1` and the nested `Anonymous.Field2` reproduces the aggregated
report exactly. -/
theorem c8_required_aggregated_error :
    (∀ missing : List ErrMissingField,
        formatMissingFieldsError missing =
          "missing required fields:" ++
            String.join (missing.map (fun e => "\n\t- " ++ e.errMsg))) ∧
    (∀ f t : String, (ErrMissingField.mk f t f).errMsg =
        "field `" ++ f ++ "` <" ++ t ++ "> is required") ∧
    (∀ f t p : String, f ≠ p → (ErrMissingField.mk f t p).errMsg =
        "field `" ++ f ++ "` <" ++ t ++ "> in path `" ++ p ++ "` is required") ∧
    (∀ (p : String) (fs1 fs2 : RqFields),
        collectFields (rqAppend fs1 fs2) p =
          collectFields fs1 p ++ collectFields fs2 p) ∧
    (∀ (fname ty req p : String) (fs' rest : RqFields),
        collectFields (.cons (.mk fname ty true req (.strukt fs')) rest) p =
          collectFields fs' (buildFieldPath fname p) ++ collectFields rest p) ∧
    (ValidateRequiredFields exampleRequired =
      some ("missing required fields:\n\t- field `Field1` <string> is required" ++
        "\n\t- field `Field2` <string> in path `Anonymous.Field2` is required")) := by
  refine ⟨?_, ?_, ?_, ?_, ?_, rfl⟩
  · intro missing
    unfold formatMissingFieldsError
    rw [joinGo_cons_eq_join, List.map_map]
    rfl
  · intro f t
    unfold ErrMissingField.errMsg
    rw [if_pos rfl]
  · intro f t p hne
    unfold ErrMissingField.errMsg
    rw [if_neg hne]
  · intro p fs1 fs2
    exact collectFields_append p fs1 fs2
  · intro fname ty req p fs' rest
    rfl

/-- Witness for `c8_required_aggregated_error` at a concrete nested
field. -/
theorem c8_witness :
    ("City" : String) ≠ "Address.City" ∧
    (ErrMissingField.mk "City" "string" "Address.City").errMsg =
      "field `" ++ "City" ++ "` <" ++ "string" ++ "> in path `" ++ "Address.City" ++
        "` is required" :=
  ⟨by decide, c8_required_aggregated_error.2.2.1 "City" "string" "Address.City" (by decide)⟩

end Gonfig
